import Mathlib

/-!
Shallow embedding of the core of the compromised-npm-packages checker:
the version parser, the version comparator, the range matcher
`isVersionCompromised`, the lockfile normalizers (v6 recursive walk and
v7+ path-keyed mapping) and the scan orchestrator
`checkForCompromisedPackages`.

Strings are modelled as Lean `String` (a list of characters); the
anchored regular expressions of the source are translated into explicit
scanning functions over `List Char`, reproducing the semantics of the JS
regex engine (greedy digit runs, leftmost match for unanchored search,
and the fact that the JS wildcard `.` does not match line terminators).
-/

/-- One character matched by the JS regex wildcard: any character except a
line terminator (LF, CR, LINE SEPARATOR, PARAGRAPH SEPARATOR). -/
def jsDotChar (c : Char) : Bool :=
  !(c == '\n' || c == '\r' || c == '\u2028' || c == '\u2029')

/-- Whitespace characters removed by the JS trim operation applied to the
specifier at the top of the matcher. -/
def jsWhitespaceChar (c : Char) : Bool :=
  c == ' ' || c == '\t' || c == '\n' || c == '\r' || c == '\x0B' || c == '\x0C' ||
  c == '\u00A0' || c == '\uFEFF' || c == '\u1680' ||
  (decide ('\u2000' ≤ c) && decide (c ≤ '\u200A')) ||
  c == '\u2028' || c == '\u2029' || c == '\u202F' || c == '\u205F' || c == '\u3000'

/-- Embedding of the JS trim call on the version range. -/
def jsTrim (s : String) : String :=
  String.mk (((s.data.dropWhile jsWhitespaceChar).reverse.dropWhile jsWhitespaceChar).reverse)

/-- Result record of the version parser (source lines 17-21):
the three dotted components as base-10 integers. -/
structure ParsedVersion where
  major : Nat
  minor : Nat
  patch : Nat
deriving DecidableEq, Repr

/-- Base-10 value of a run of ASCII digits, as computed by the
source's parseInt calls on the captured digit groups. -/
def digitsToNat (l : List Char) : Nat :=
  l.foldl (fun n c => n * 10 + (c.toNat - 48)) 0

/-- Anchored match of the digit-dot-digit-dot-digit pattern at the start of a
character list, with greedy (maximal) digit runs, returning the three digit
runs and the unconsumed remainder.  This is the common core of the anchored
regexes in the source (the full-string version regex of parseVersion and the
leading-triple extraction regexes of the matcher). -/
def tripleSplit (l : List Char) : Option (List Char × List Char × List Char × List Char) :=
  match l.dropWhile Char.isDigit with
  | '.' :: r2 =>
    match r2.dropWhile Char.isDigit with
    | '.' :: r4 =>
      if l.takeWhile Char.isDigit ≠ [] ∧ r2.takeWhile Char.isDigit ≠ [] ∧
          r4.takeWhile Char.isDigit ≠ [] then
        some (l.takeWhile Char.isDigit, r2.takeWhile Char.isDigit,
              r4.takeWhile Char.isDigit, r4.dropWhile Char.isDigit)
      else none
    | _ => none
  | _ => none

/-- Captured substring of the leading dotted-triple regex used by the
matcher (bare-exact branch and the caret and tilde base extraction):
the text of the first capture group, when the anchored pattern matches. -/
def matchTripleAt (l : List Char) : Option (List Char) :=
  match tripleSplit l with
  | some (d1, d2, d3, _) => some (d1 ++ '.' :: (d2 ++ '.' :: d3))
  | none => none

/-- Unanchored leftmost search for a dotted-triple substring, as done by the
final branch of the matcher (source line 77): the regex engine tries each
start position from the left and returns the first capture. -/
def findTriple : List Char → Option (List Char)
  | [] => none
  | c :: cs =>
    match matchTripleAt (c :: cs) with
    | some m => some m
    | none => findTriple cs

/-- Acceptance of the optional pre-release and build tail of the version
regex of parseVersion.  The tail matches when it is empty or starts with a
dash or a plus followed by characters the JS wildcard can match (no line
terminators), which is exactly the language of the trailing part of the
anchored regex on source line 14. -/
def suffixOk : List Char → Bool
  | [] => true
  | '-' :: t => t.all jsDotChar
  | '+' :: t => t.all jsDotChar
  | _ => false

/-- Embedding of parseVersion (source lines 11-22): reject the empty string,
require the full string to be a dotted triple optionally followed by a
dash or plus tail, and return the three components in base 10. -/
def parseVersion (version : String) : Option ParsedVersion :=
  if version == "" then none
  else
    match tripleSplit version.data with
    | some (d1, d2, d3, r) =>
      if suffixOk r then some ⟨digitsToNat d1, digitsToNat d2, digitsToNat d3⟩ else none
    | none => none

/-- Embedding of compareVersions (source lines 24-28): three-way compare by
major, then minor, then patch, via integer subtraction. -/
def compareVersions (v1 v2 : ParsedVersion) : Int :=
  if v1.major ≠ v2.major then (v1.major : Int) - (v2.major : Int)
  else if v1.minor ≠ v2.minor then (v1.minor : Int) - (v2.minor : Int)
  else (v1.patch : Int) - (v2.patch : Int)

/-- Caret branch of the matcher (source lines 42-57), applied to the trimmed
range with the leading caret already stripped. -/
def caretCheck (r : List Char) (compromisedVersions : List String) : Bool :=
  match matchTripleAt r with
  | none => false
  | some baseVersionStr =>
    match parseVersion (String.mk baseVersionStr) with
    | none => false
    | some baseVersion =>
      compromisedVersions.any fun compromisedVer =>
        match parseVersion compromisedVer with
        | none => false
        | some compVer =>
          compVer.major == baseVersion.major && decide (0 ≤ compareVersions compVer baseVersion)

/-- Tilde branch of the matcher (source lines 59-75), applied to the trimmed
range with the leading tilde already stripped. -/
def tildeCheck (r : List Char) (compromisedVersions : List String) : Bool :=
  match matchTripleAt r with
  | none => false
  | some baseVersionStr =>
    match parseVersion (String.mk baseVersionStr) with
    | none => false
    | some baseVersion =>
      compromisedVersions.any fun compromisedVer =>
        match parseVersion compromisedVer with
        | none => false
        | some compVer =>
          compVer.major == baseVersion.major && compVer.minor == baseVersion.minor &&
            decide (baseVersion.patch ≤ compVer.patch)

/-- Fallback branch of the matcher (source lines 77-82): search anywhere in
the trimmed range for a dotted triple and test exact membership. -/
def otherCheck (range : List Char) (compromisedVersions : List String) : Bool :=
  match findTriple range with
  | some m => compromisedVersions.contains (String.mk m)
  | none => false

/-- Embedding of isVersionCompromised (source lines 30-83).  Empty inputs are
rejected, the range is trimmed, then the branches are tried in source order:
leading bare dotted triple (exact string membership), caret, tilde, and
finally the anywhere-search fallback. -/
def isVersionCompromised (versionRange : String) (compromisedVersions : List String) : Bool :=
  if versionRange == "" || compromisedVersions.length == 0 then
    false
  else
    match matchTripleAt (jsTrim versionRange).data with
    | some exactVersion => compromisedVersions.contains (String.mk exactVersion)
    | none =>
      match (jsTrim versionRange).data with
      | [] => otherCheck [] compromisedVersions
      | c :: r =>
        if c == '^' then caretCheck r compromisedVersions
        else if c == '~' then tildeCheck r compromisedVersions
        else otherCheck (c :: r) compromisedVersions

/-- Greater-or-equal relation on parsed versions under the (major, minor,
patch) lexicographic comparator, stated as the specification words it. -/
def specVersionGe (a b : ParsedVersion) : Prop :=
  b.major < a.major ∨
    (a.major = b.major ∧ (b.minor < a.minor ∨ (a.minor = b.minor ∧ b.patch ≤ a.patch)))

instance (a b : ParsedVersion) : Decidable (specVersionGe a b) := by
  unfold specVersionGe
  infer_instance

/-- Shape of a full match of the version regex of parseVersion: the string
splits into three nonempty digit runs separated by dots, followed by an
admissible pre-release or build tail. -/
def TripleShape (l : List Char) : Prop :=
  ∃ d1 d2 d3 t,
    l = d1 ++ '.' :: (d2 ++ '.' :: (d3 ++ t)) ∧
    d1 ≠ [] ∧ d2 ≠ [] ∧ d3 ≠ [] ∧
    d1.all Char.isDigit = true ∧ d2.all Char.isDigit = true ∧ d3.all Char.isDigit = true ∧
    suffixOk t = true

/-- Removal of one leading node_modules/ from an install path, as done by
the first anchored replace on source line 151. -/
def stripLeadNM (l : List Char) : List Char :=
  if "node_modules/".data.isPrefixOf l then l.drop ("node_modules/".data.length) else l

/-- Truncation of an install path at the first subsequent /node_modules/,
as done by the second replace on source line 151.  The regex engine scans
left to right; a position matches when the literal /node_modules/ starts
there and the rest of the string contains no line terminator (the JS
wildcard of the trailing part cannot cross one), and the match then always
extends to the end of the string, so everything from the match position on
is removed. -/
def truncAtNM : List Char → List Char
  | [] => []
  | c :: cs =>
    if "/node_modules/".data.isPrefixOf (c :: cs) &&
        ((c :: cs).drop ("/node_modules/".data.length)).all jsDotChar then
      []
    else
      c :: truncAtNM cs

/-- Package-name derivation from an install path (source line 151): strip a
leading node_modules/ and truncate at the first subsequent /node_modules/. -/
def deriveName (packagePath : String) : String :=
  String.mk (truncAtNM (stripLeadNM packagePath.data))

/-- Reading of the claim sentence describing name derivation: the path
segment immediately following the last node_modules/, truncated at any
deeper nested node_modules segment.  Used only to compare the claim's words
against the source's deriveName. -/
def afterLastNM : List Char → Option (List Char)
  | [] => none
  | c :: cs =>
    match afterLastNM cs with
    | some r => some r
    | none =>
      if "node_modules/".data.isPrefixOf (c :: cs) then
        some ((c :: cs).drop ("node_modules/".data.length))
      else none

/-- Name a path denotes under the claim's last-node_modules reading. -/
def nameAfterLastNodeModules (packagePath : String) : String :=
  match afterLastNM packagePath.data with
  | some r => String.mk (truncAtNM r)
  | none => String.mk (truncAtNM packagePath.data)

/-- One entry of a v6-style nested lockfile: an optional version field and a
nested dependencies mapping (JSON objects are ordered key-value lists). -/
inductive V6Tree where
  | mk (version : Option String) (dependencies : List (String × V6Tree))

/-- Value stored for one install path by the normalizer: the version field of
the lockfile entry (absent fields are modelled as none; the extra metadata
the source spreads into the stored object is never read downstream). -/
structure LockEntry where
  version : Option String
deriving DecidableEq, Repr

/-- Synthetic install path built by the v6 walk (source line 104): a
node_modules/name segment appended to the running prefix, or a root path
when the prefix is empty. -/
def mkPath (pre name : String) : String :=
  if pre == "" then "node_modules/" ++ name else pre ++ "/node_modules/" ++ name

/-- Embedding of parseV6Dependencies (source lines 97-120): walk the nested
dependency tree, emit a leaf entry for each package whose version field is
present and truthy (a JS empty string is falsy), and recurse into the nested
dependencies with the freshly built path as the new prefix.  The result list
preserves the insertion order of the source's object. -/
def parseV6Dependencies : List (String × V6Tree) → String → List (String × LockEntry)
  | [], _ => []
  | (packageName, V6Tree.mk v ds) :: rest, pre =>
    (match v with
     | some ver => if ver == "" then [] else [(mkPath pre packageName, LockEntry.mk (some ver))]
     | none => []) ++
    parseV6Dependencies ds (mkPath pre packageName) ++
    parseV6Dependencies rest pre
termination_by l _ => sizeOf l
decreasing_by
  all_goals simp_wf
  all_goals omega

/-- One reported match (source lines 158-164 and 184-190): the dependency
type is set only by the manifest branch and the install path only by the
lockfile branch. -/
structure MatchResult where
  name : String
  version : String
  compromisedVersions : List String
  status : String
  depType : Option String
  path : Option String
deriving DecidableEq, Repr

/-- Report produced by one scan: either a normal result with the match list,
the total and the safe flag, or an error result carrying the failure
description (source lines 133-138 and 202-208). -/
inductive ScanReport where
  | ok (file : String) (found : List MatchResult) (total : Nat) (safe : Bool)
  | fail (file : String) (error : String) (safe : Bool)
deriving DecidableEq, Repr

/-- Decoded document as consumed by checkForCompromisedPackages.  The JS
field dependencies is untyped: the lockfile branch reads it as a v6 nested
tree and the manifest branch reads it as a name-to-specifier mapping; the
two typed views of that one field are modelled as two fields, since a given
document is processed by exactly one branch. -/
structure PackageData where
  packages : Option (List (String × LockEntry))
  dependencies : Option (List (String × V6Tree))
  manifestDependencies : Option (List (String × String))
  devDependencies : Option (List (String × String))
  peerDependencies : Option (List (String × String))
  optionalDependencies : Option (List (String × String))

/-- Ordered concatenation of the per-element results, as produced by the
source's forEach loops pushing onto one array. -/
def concatMap (f : α → List β) : List α → List β
  | [] => []
  | x :: xs => f x ++ concatMap f xs

/-- Lockfile branch of the scan (source lines 150-167): derive the package
name from each install path, look it up in the database, and test the
installed version (an absent or empty version field degrades to the literal
unknown, which can never match). -/
def lockMatches (db : List (String × List String)) (pkgs : List (String × LockEntry)) :
    List MatchResult :=
  concatMap (fun pe =>
    match List.lookup (deriveName pe.1) db with
    | none => []
    | some compromisedVersions =>
      if isVersionCompromised
          (match pe.2.version with
           | some v => if v == "" then "unknown" else v
           | none => "unknown")
          compromisedVersions then
        [⟨deriveName pe.1,
          (match pe.2.version with
           | some v => if v == "" then "unknown" else v
           | none => "unknown"),
          compromisedVersions, "COMPROMISED", none, some pe.1⟩]
      else []) pkgs

/-- Manifest branch of the scan (source lines 169-195): the four dependency
sections in their fixed order, each mapping package names to specifiers. -/
def manifestMatches (db : List (String × List String)) (pd : PackageData) :
    List MatchResult :=
  concatMap (fun dt =>
    match dt.2 with
    | none => []
    | some entries =>
      concatMap (fun nv =>
        match List.lookup nv.1 db with
        | none => []
        | some compromisedVersions =>
          if isVersionCompromised nv.2 compromisedVersions then
            [⟨nv.1, nv.2, compromisedVersions, "COMPROMISED", some dt.1, none⟩]
          else []) entries)
    [("dependencies", pd.manifestDependencies), ("devDependencies", pd.devDependencies),
     ("peerDependencies", pd.peerDependencies), ("optionalDependencies", pd.optionalDependencies)]

/-- Substring test of the JS includes call used for lockfile detection. -/
def listContainsSub (sub : List Char) : List Char → Bool
  | [] => sub.isEmpty
  | c :: cs => sub.isPrefixOf (c :: cs) || listContainsSub sub cs

/-- String containment, as the JS includes call on the basename. -/
def strContains (s sub : String) : Bool :=
  listContainsSub sub.data s.data

/-- Final path component, as computed by the basename call on source
line 140: trailing path separators are dropped, then the part after the
last remaining separator is taken. -/
def jsBasename (p : String) : String :=
  String.mk (((p.data.reverse.dropWhile (fun c => c == '/')).takeWhile
    (fun c => !(c == '/'))).reverse)

/-- Path-to-entry mapping selected by the lockfile branch (source lines
141-148): the flat v7+ packages field when present, else the normalized v6
dependencies field, else the empty default. -/
def packagesToCheck (pd : PackageData) : List (String × LockEntry) :=
  match pd.packages with
  | some pkgs => pkgs
  | none =>
    match pd.dependencies with
    | some deps => parseV6Dependencies deps ""
    | none => []

/-- Match list accumulated for one decoded document: the branch is selected
by the file name (source line 140), then the lockfile or manifest loop
runs. -/
def scanFound (filePath : String) (pd : PackageData)
    (db : List (String × List String)) : List MatchResult :=
  if strContains (jsBasename filePath) "package-lock.json" then
    lockMatches db (packagesToCheck pd)
  else
    manifestMatches db pd

/-- Embedding of checkForCompromisedPackages (source lines 122-209).  The
effectful read-and-decode step is passed in as an Except value: the catch
handler of the source turns any failure into an error report carrying the
message, with the safe flag cleared and no match data.  On success the
document is normalized and matched, and the total and safe flag are
computed from the accumulated match list. -/
def checkForCompromisedPackages (filePath : String) (readResult : Except String PackageData)
    (db : List (String × List String)) : ScanReport :=
  match readResult with
  | Except.error e => ScanReport.fail filePath e false
  | Except.ok packageData =>
    ScanReport.ok filePath (scanFound filePath packageData db)
      (scanFound filePath packageData db).length
      ((scanFound filePath packageData db).length == 0)

/-! Helper lemmas about the scanning functions. -/

theorem takeWhile_all_self {p : Char → Bool} {a : List Char} (h : a.all p = true) :
    a.takeWhile p = a ∧ a.dropWhile p = [] := by
  induction a with
  | nil => simp
  | cons c cs ih =>
    simp only [List.all_cons, Bool.and_eq_true] at h
    simp [List.takeWhile_cons, List.dropWhile_cons, h.1, (ih h.2).1, (ih h.2).2]

theorem takeWhile_append_stop {p : Char → Bool} {a : List Char} {x : Char} {r : List Char}
    (ha : a.all p = true) (hx : p x = false) :
    (a ++ x :: r).takeWhile p = a ∧ (a ++ x :: r).dropWhile p = x :: r := by
  induction a with
  | nil => simp [List.takeWhile_cons, List.dropWhile_cons, hx]
  | cons c cs ih =>
    simp only [List.all_cons, Bool.and_eq_true] at ha
    simp [List.takeWhile_cons, List.dropWhile_cons, ha.1, (ih ha.2).1, (ih ha.2).2]

theorem all_takeWhile_true (p : Char → Bool) (l : List Char) :
    (l.takeWhile p).all p = true := by
  rw [List.all_eq_true]
  intro x hx
  exact List.mem_takeWhile_imp hx

theorem tripleSplit_complete {d1 d2 d3 t : List Char}
    (h1 : d1 ≠ []) (h2 : d2 ≠ []) (h3 : d3 ≠ [])
    (g1 : d1.all Char.isDigit = true) (g2 : d2.all Char.isDigit = true)
    (g3 : d3.all Char.isDigit = true)
    (ht : t = [] ∨ ∃ c t', t = c :: t' ∧ Char.isDigit c = false) :
    tripleSplit (d1 ++ '.' :: (d2 ++ '.' :: (d3 ++ t))) = some (d1, d2, d3, t) := by
  have hdot : Char.isDigit '.' = false := by decide
  obtain ⟨htw1, hdw1⟩ := takeWhile_append_stop (r := d2 ++ '.' :: (d3 ++ t)) g1 hdot
  obtain ⟨htw2, hdw2⟩ := takeWhile_append_stop (r := d3 ++ t) g2 hdot
  have h3' : (d3 ++ t).takeWhile Char.isDigit = d3 ∧ (d3 ++ t).dropWhile Char.isDigit = t := by
    rcases ht with rfl | ⟨c, t', rfl, hc⟩
    · simpa using takeWhile_all_self g3
    · exact takeWhile_append_stop g3 hc
  simp [tripleSplit, hdw1, hdw2, htw1, htw2, h3'.1, h3'.2, h1, h2, h3]

theorem tripleSplit_sound {l a b c r : List Char}
    (h : tripleSplit l = some (a, b, c, r)) :
    l = a ++ '.' :: (b ++ '.' :: (c ++ r)) ∧
    a ≠ [] ∧ b ≠ [] ∧ c ≠ [] ∧
    a.all Char.isDigit = true ∧ b.all Char.isDigit = true ∧ c.all Char.isDigit = true := by
  unfold tripleSplit at h
  split at h
  case h_2 => exact absurd h (by simp)
  case h_1 r2 heq1 =>
    split at h
    case h_2 => exact absurd h (by simp)
    case h_1 r4 heq2 =>
      split at h
      case isFalse => exact absurd h (by simp)
      case isTrue hne =>
        injection h with h
        injection h with ha h
        injection h with hb h
        injection h with hc hr
        subst ha; subst hb; subst hc; subst hr
        refine ⟨?_, hne.1, hne.2.1, hne.2.2, all_takeWhile_true .., all_takeWhile_true ..,
          all_takeWhile_true ..⟩
        have e1 : l = l.takeWhile Char.isDigit ++ '.' :: r2 := by
          conv_lhs => rw [← List.takeWhile_append_dropWhile (p := Char.isDigit) (l := l)]
          rw [heq1]
        have e2 : r2 = r2.takeWhile Char.isDigit ++ '.' :: r4 := by
          conv_lhs => rw [← List.takeWhile_append_dropWhile (p := Char.isDigit) (l := r2)]
          rw [heq2]
        have e4 : r4 = r4.takeWhile Char.isDigit ++ r4.dropWhile Char.isDigit :=
          (List.takeWhile_append_dropWhile ..).symm
        conv_lhs => rw [e1, e2, e4]

theorem tripleSplit_cons_nondigit {c : Char} {l : List Char} (h : Char.isDigit c = false) :
    tripleSplit (c :: l) = none := by
  have hdw : (c :: l).dropWhile Char.isDigit = c :: l := by simp [List.dropWhile_cons, h]
  have htw : (c :: l).takeWhile Char.isDigit = [] := by simp [List.takeWhile_cons, h]
  unfold tripleSplit
  rw [hdw]
  split
  case h_2 => rfl
  case h_1 r2 heq =>
    split
    case h_2 => rfl
    case h_1 r4 heq2 =>
      rw [if_neg]
      intro hcon
      exact absurd htw hcon.1

theorem matchTripleAt_cons_nondigit {c : Char} {l : List Char} (h : Char.isDigit c = false) :
    matchTripleAt (c :: l) = none := by
  simp [matchTripleAt, tripleSplit_cons_nondigit h]

theorem matchTripleAt_nil : matchTripleAt [] = none := by decide

theorem jsTrim_empty_data : (jsTrim "").data = [] := by decide

theorem compareVersions_nonneg_iff (a b : ParsedVersion) :
    0 ≤ compareVersions a b ↔ specVersionGe a b := by
  unfold compareVersions specVersionGe
  split_ifs with h1 h2 <;> omega

theorem isVersionCompromised_eq_branches (s : String) (cvs : List String)
    (hs : s ≠ "") (hc : cvs ≠ []) :
    isVersionCompromised s cvs =
      match matchTripleAt (jsTrim s).data with
      | some exactVersion => cvs.contains (String.mk exactVersion)
      | none =>
        match (jsTrim s).data with
        | [] => otherCheck [] cvs
        | c :: r =>
          if c == '^' then caretCheck r cvs
          else if c == '~' then tildeCheck r cvs
          else otherCheck (c :: r) cvs := by
  have h1 : (s == "") = false := by rw [beq_eq_false_iff_ne]; exact hs
  have h2 : (cvs.length == 0) = false := by
    rw [beq_eq_false_iff_ne]
    intro hlen
    exact hc (List.length_eq_zero.mp hlen)
  simp [isVersionCompromised, h1, h2]

theorem ivc_empty_list (s : String) : isVersionCompromised s [] = false := by
  simp [isVersionCompromised]

theorem ivc_caret (s : String) (cvs : List String) (r : List Char)
    (hs : (jsTrim s).data = '^' :: r) (hc : cvs ≠ []) :
    isVersionCompromised s cvs = caretCheck r cvs := by
  have hsne : s ≠ "" := by
    intro h
    subst h
    rw [jsTrim_empty_data] at hs
    exact List.noConfusion hs
  rw [isVersionCompromised_eq_branches s cvs hsne hc, hs,
    matchTripleAt_cons_nondigit (by decide)]
  simp

theorem ivc_tilde (s : String) (cvs : List String) (r : List Char)
    (hs : (jsTrim s).data = '~' :: r) (hc : cvs ≠ []) :
    isVersionCompromised s cvs = tildeCheck r cvs := by
  have hsne : s ≠ "" := by
    intro h
    subst h
    rw [jsTrim_empty_data] at hs
    exact List.noConfusion hs
  rw [isVersionCompromised_eq_branches s cvs hsne hc, hs,
    matchTripleAt_cons_nondigit (by decide)]
  simp

theorem ivc_exact (s : String) (cvs : List String) (ex : List Char)
    (hx : matchTripleAt (jsTrim s).data = some ex) (hc : cvs ≠ []) :
    isVersionCompromised s cvs = cvs.contains (String.mk ex) := by
  have hsne : s ≠ "" := by
    intro h
    subst h
    rw [jsTrim_empty_data, matchTripleAt_nil] at hx
    exact Option.noConfusion hx
  rw [isVersionCompromised_eq_branches s cvs hsne hc, hx]

theorem ivc_other (s : String) (cvs : List String)
    (hnone : matchTripleAt (jsTrim s).data = none)
    (hhead : ∀ c r, (jsTrim s).data = c :: r → c ≠ '^' ∧ c ≠ '~')
    (hc : cvs ≠ []) (hsne : s ≠ "") :
    isVersionCompromised s cvs = otherCheck (jsTrim s).data cvs := by
  rw [isVersionCompromised_eq_branches s cvs hsne hc, hnone]
  cases hd : (jsTrim s).data with
  | nil => rfl
  | cons c r =>
    obtain ⟨h1, h2⟩ := hhead c r hd
    simp [h1, h2]

theorem caretCheck_eq_exists (r : List Char) (cvs : List String) (bs : List Char)
    (base : ParsedVersion) (hbs : matchTripleAt r = some bs)
    (hpv : parseVersion (String.mk bs) = some base) :
    (caretCheck r cvs = true ↔
      ∃ cv ∈ cvs, ∃ c, parseVersion cv = some c ∧ c.major = base.major ∧ specVersionGe c base) := by
  simp only [caretCheck, hbs, hpv, List.any_eq_true]
  constructor
  · rintro ⟨cv, hmem, hp⟩
    cases hpc : parseVersion cv with
    | none => rw [hpc] at hp; exact absurd hp (by simp)
    | some c =>
      rw [hpc] at hp
      simp only [Bool.and_eq_true, beq_iff_eq, decide_eq_true_eq] at hp
      exact ⟨cv, hmem, c, hpc, hp.1, (compareVersions_nonneg_iff c base).mp hp.2⟩
  · rintro ⟨cv, hmem, c, hpc, hmaj, hge⟩
    refine ⟨cv, hmem, ?_⟩
    rw [hpc]
    simp only [Bool.and_eq_true, beq_iff_eq, decide_eq_true_eq]
    exact ⟨hmaj, (compareVersions_nonneg_iff c base).mpr hge⟩

theorem tildeCheck_eq_exists (r : List Char) (cvs : List String) (bs : List Char)
    (base : ParsedVersion) (hbs : matchTripleAt r = some bs)
    (hpv : parseVersion (String.mk bs) = some base) :
    (tildeCheck r cvs = true ↔
      ∃ cv ∈ cvs, ∃ c, parseVersion cv = some c ∧ c.major = base.major ∧
        c.minor = base.minor ∧ base.patch ≤ c.patch) := by
  simp only [tildeCheck, hbs, hpv, List.any_eq_true]
  constructor
  · rintro ⟨cv, hmem, hp⟩
    cases hpc : parseVersion cv with
    | none => rw [hpc] at hp; exact absurd hp (by simp)
    | some c =>
      rw [hpc] at hp
      simp only [Bool.and_eq_true, beq_iff_eq, decide_eq_true_eq] at hp
      exact ⟨cv, hmem, c, hpc, hp.1.1, hp.1.2, hp.2⟩
  · rintro ⟨cv, hmem, c, hpc, hmaj, hmin, hp⟩
    refine ⟨cv, hmem, ?_⟩
    rw [hpc]
    simp only [Bool.and_eq_true, beq_iff_eq, decide_eq_true_eq]
    exact ⟨⟨hmaj, hmin⟩, hp⟩

/-- C1: for a caret specifier whose trimmed form is a caret followed by a
remainder beginning with a parsable dotted-triple base version, the matcher
returns true iff some string in the compromised list parses as a dotted
triple with the same major component as the base that is at least the base
under the (major, minor, patch) lexicographic comparator; when the
remainder does not begin with a dotted triple the matcher returns false. -/
theorem caret_specifier_matching (s : String) (cvs : List String) (r : List Char)
    (hs : (jsTrim s).data = '^' :: r) :
    (∀ bs base, matchTripleAt r = some bs → parseVersion (String.mk bs) = some base →
      (isVersionCompromised s cvs = true ↔
        ∃ cv ∈ cvs, ∃ c, parseVersion cv = some c ∧ c.major = base.major ∧ specVersionGe c base))
    ∧ (matchTripleAt r = none → isVersionCompromised s cvs = false) := by
  by_cases hc : cvs = []
  · subst hc
    refine ⟨?_, ?_⟩
    · intro bs base _ _
      rw [ivc_empty_list]
      simp
    · intro _
      exact ivc_empty_list s
  · have hcar := ivc_caret s cvs r hs hc
    refine ⟨?_, ?_⟩
    · intro bs base hbs hpv
      rw [hcar]
      exact caretCheck_eq_exists r cvs bs base hbs hpv
    · intro hnone
      rw [hcar]
      unfold caretCheck
      rw [hnone]

/-- Witness for C1 at the specification's own example inputs. -/
theorem caret_specifier_matching_witness :
    (jsTrim "^1.2.3").data = '^' :: "1.2.3".data ∧
    isVersionCompromised "^1.2.3" ["1.5.0"] = true :=
  ⟨by decide,
    ((caret_specifier_matching "^1.2.3" ["1.5.0"] "1.2.3".data (by decide)).1
      "1.2.3".data ⟨1, 2, 3⟩ (by decide) (by decide)).mpr
      ⟨"1.5.0", by decide, ⟨1, 5, 0⟩, by decide, by decide, by decide⟩⟩

/-- C3: for a tilde specifier whose trimmed form is a tilde followed by a
remainder beginning with a parsable dotted-triple base version, the matcher
returns true iff some string in the compromised list parses as a dotted
triple with the same major and minor components as the base and a patch
component at least the base's patch. -/
theorem tilde_specifier_matching (s : String) (cvs : List String) (r : List Char)
    (hs : (jsTrim s).data = '~' :: r) :
    ∀ bs base, matchTripleAt r = some bs → parseVersion (String.mk bs) = some base →
      (isVersionCompromised s cvs = true ↔
        ∃ cv ∈ cvs, ∃ c, parseVersion cv = some c ∧ c.major = base.major ∧
          c.minor = base.minor ∧ base.patch ≤ c.patch) := by
  by_cases hc : cvs = []
  · subst hc
    intro bs base _ _
    rw [ivc_empty_list]
    simp
  · intro bs base hbs hpv
    rw [ivc_tilde s cvs r hs hc]
    exact tildeCheck_eq_exists r cvs bs base hbs hpv

/-- Witness for C3 at the specification's own example inputs. -/
theorem tilde_specifier_matching_witness :
    (jsTrim "~1.2.3").data = '~' :: "1.2.3".data ∧
    isVersionCompromised "~1.2.3" ["1.2.9"] = true :=
  ⟨by decide,
    (tilde_specifier_matching "~1.2.3" ["1.2.9"] "1.2.3".data (by decide)
      "1.2.3".data ⟨1, 2, 3⟩ (by decide) (by decide)).mpr
      ⟨"1.2.9", by decide, ⟨1, 2, 9⟩, by decide, by decide, by decide, by decide⟩⟩

/-- C5: for a specifier whose trimmed form begins with a bare dotted triple,
the matcher returns true iff the captured leading triple is a member of the
compromised list under exact string equality; membership is not numeric, so
a declared 1.2.3 does not match a stored 1.02.3. -/
theorem bare_exact_specifier_matching :
    (∀ (s : String) (cvs : List String) (ex : List Char),
      matchTripleAt (jsTrim s).data = some ex →
      (isVersionCompromised s cvs = true ↔ String.mk ex ∈ cvs))
    ∧ isVersionCompromised "1.2.3" ["1.02.3"] = false := by
  refine ⟨?_, by decide⟩
  intro s cvs ex hx
  by_cases hc : cvs = []
  · subst hc
    rw [ivc_empty_list]
    simp
  · rw [ivc_exact s cvs ex hx hc]
    exact List.elem_iff

/-- Witness for C5 at the specification's own example inputs. -/
theorem bare_exact_specifier_matching_witness :
    matchTripleAt (jsTrim "1.2.3").data = some "1.2.3".data ∧
    isVersionCompromised "1.2.3" ["1.2.3"] = true :=
  ⟨by decide,
    (bare_exact_specifier_matching.1 "1.2.3" ["1.2.3"] "1.2.3".data (by decide)).mpr
      (by decide)⟩

/-- C6: for a trimmed specifier that begins with neither a bare dotted
triple nor a caret nor a tilde, the matcher searches the whole string for a
dotted-triple substring and returns true iff the extracted substring is a
member of the compromised list, and returns false when no dotted triple
occurs anywhere. -/
theorem fallback_substring_matching (s : String) (cvs : List String)
    (hnone : matchTripleAt (jsTrim s).data = none)
    (hcaret : (jsTrim s).data.head? ≠ some '^')
    (htilde : (jsTrim s).data.head? ≠ some '~') :
    (∀ m, findTriple (jsTrim s).data = some m →
      (isVersionCompromised s cvs = true ↔ String.mk m ∈ cvs))
    ∧ (findTriple (jsTrim s).data = none → isVersionCompromised s cvs = false) := by
  by_cases hc : cvs = []
  · subst hc
    refine ⟨?_, ?_⟩
    · intro m _
      rw [ivc_empty_list]
      simp
    · intro _
      exact ivc_empty_list s
  · by_cases hsne : s = ""
    · subst hsne
      refine ⟨?_, ?_⟩
      · intro m hm
        rw [jsTrim_empty_data] at hm
        simp [findTriple] at hm
      · intro _
        simp [isVersionCompromised]
    · have hhead : ∀ c r, (jsTrim s).data = c :: r → c ≠ '^' ∧ c ≠ '~' := by
        intro c r hd
        constructor
        · intro h
          subst h
          exact hcaret (by rw [hd]; rfl)
        · intro h
          subst h
          exact htilde (by rw [hd]; rfl)
      have hoth := ivc_other s cvs hnone hhead hc hsne
      refine ⟨?_, ?_⟩
      · intro m hm
        rw [hoth]
        unfold otherCheck
        rw [hm]
        exact List.elem_iff
      · intro hfn
        rw [hoth]
        unfold otherCheck
        rw [hfn]

/-- Witness for C6 at a range specifier the engine does not specially
parse. -/
theorem fallback_substring_matching_witness :
    findTriple (jsTrim ">=1.2.3").data = some "1.2.3".data ∧
    isVersionCompromised ">=1.2.3" ["1.2.3"] = true :=
  ⟨by decide,
    ((fallback_substring_matching ">=1.2.3" ["1.2.3"] (by decide) (by decide) (by decide)).1
      "1.2.3".data (by decide)).mpr (by decide)⟩

/-- C8: the matcher returns false whenever the specifier is the empty
string or the compromised list is empty, regardless of the other
argument. -/
theorem empty_inputs_vacuous_safety :
    (∀ cvs : List String, isVersionCompromised "" cvs = false)
    ∧ (∀ s : String, isVersionCompromised s [] = false) := by
  refine ⟨?_, ?_⟩
  · intro cvs
    simp [isVersionCompromised]
  · intro s
    exact ivc_empty_list s

/-! Lemmas for the version parser claims. -/

theorem mk_ne_empty {l : List Char} (h : l ≠ []) : String.mk l ≠ "" := by
  intro he
  apply h
  calc l = (String.mk l).data := rfl
  _ = ("" : String).data := by rw [he]
  _ = [] := rfl

theorem parseVersion_of_tripleSplit {s : String} {d1 d2 d3 t : List Char}
    (hl : s ≠ "") (hts : tripleSplit s.data = some (d1, d2, d3, t))
    (hsuf : suffixOk t = true) :
    parseVersion s = some ⟨digitsToNat d1, digitsToNat d2, digitsToNat d3⟩ := by
  have h0 : (s == "") = false := beq_eq_false_iff_ne.mpr hl
  simp [parseVersion, h0, hts, hsuf]

theorem parseVersion_some_shape {s : String} {v : ParsedVersion}
    (hp : parseVersion s = some v) : TripleShape s.data := by
  unfold parseVersion at hp
  split at hp
  case isTrue => exact absurd hp (by simp)
  case isFalse =>
    split at hp
    case h_2 => exact absurd hp (by simp)
    case h_1 d1 d2 d3 r heq =>
      split at hp
      case isFalse => exact absurd hp (by simp)
      case isTrue hsuf =>
        obtain ⟨hl, h1, h2, h3, g1, g2, g3⟩ := tripleSplit_sound heq
        exact ⟨d1, d2, d3, r, hl, h1, h2, h3, g1, g2, g3, hsuf⟩

/-- C7 counterexample: appending a dash suffix containing a line terminator
changes the result of parseVersion, because the wildcard of the suffix part
of the version regex cannot match a line terminator. -/
theorem parseVersion_newline_suffix_cex :
    parseVersion "1.2.3" = some ⟨1, 2, 3⟩ ∧
    parseVersion "1.2.3-a\nb" = none ∧
    parseVersion "1.2.3-a\nb" ≠ parseVersion "1.2.3" := by
  decide

/-- C7 amended: for every valid dotted-triple string, parseVersion returns
the three base-10 components, and the result is unchanged by appending a
dash or plus suffix whose content contains no line terminator; every input
that is empty or does not decompose as the dotted-triple pattern (such as
latest, a star, or a two-component version) yields no value. -/
theorem parseVersion_spec :
    (∀ d1 d2 d3 : List Char,
      d1 ≠ [] → d2 ≠ [] → d3 ≠ [] →
      d1.all Char.isDigit = true → d2.all Char.isDigit = true → d3.all Char.isDigit = true →
      parseVersion (String.mk (d1 ++ '.' :: (d2 ++ '.' :: d3))) =
          some ⟨digitsToNat d1, digitsToNat d2, digitsToNat d3⟩
        ∧ (∀ t : List Char, t.all jsDotChar = true →
          parseVersion (String.mk (d1 ++ '.' :: (d2 ++ '.' :: (d3 ++ '-' :: t)))) =
              some ⟨digitsToNat d1, digitsToNat d2, digitsToNat d3⟩
          ∧ parseVersion (String.mk (d1 ++ '.' :: (d2 ++ '.' :: (d3 ++ '+' :: t)))) =
              some ⟨digitsToNat d1, digitsToNat d2, digitsToNat d3⟩))
    ∧ (∀ s : String, ¬ TripleShape s.data → parseVersion s = none)
    ∧ parseVersion "" = none ∧ parseVersion "latest" = none ∧ parseVersion "*" = none ∧
      parseVersion "1.2" = none := by
  refine ⟨?_, ?_, by decide, by decide, by decide, by decide⟩
  · intro d1 d2 d3 h1 h2 h3 g1 g2 g3
    have hne : d1 ++ '.' :: (d2 ++ '.' :: d3) ≠ [] := by
      cases d1 with
      | nil => exact absurd rfl h1
      | cons a as => simp
    refine ⟨?_, ?_⟩
    · have hts := tripleSplit_complete (t := []) h1 h2 h3 g1 g2 g3 (Or.inl rfl)
      rw [List.append_nil] at hts
      exact parseVersion_of_tripleSplit (mk_ne_empty hne) hts rfl
    · intro t ht
      have hnegd : Char.isDigit '-' = false := by decide
      have hnegp : Char.isDigit '+' = false := by decide
      have hne2 : d1 ++ '.' :: (d2 ++ '.' :: (d3 ++ '-' :: t)) ≠ [] := by
        cases d1 with
        | nil => exact absurd rfl h1
        | cons a as => simp
      have hne3 : d1 ++ '.' :: (d2 ++ '.' :: (d3 ++ '+' :: t)) ≠ [] := by
        cases d1 with
        | nil => exact absurd rfl h1
        | cons a as => simp
      refine ⟨?_, ?_⟩
      · have hts := tripleSplit_complete (t := '-' :: t) h1 h2 h3 g1 g2 g3
          (Or.inr ⟨'-', t, rfl, hnegd⟩)
        exact parseVersion_of_tripleSplit (mk_ne_empty hne2) hts (by simp [suffixOk, ht])
      · have hts := tripleSplit_complete (t := '+' :: t) h1 h2 h3 g1 g2 g3
          (Or.inr ⟨'+', t, rfl, hnegp⟩)
        exact parseVersion_of_tripleSplit (mk_ne_empty hne3) hts (by simp [suffixOk, ht])
  · intro s hshape
    cases hp : parseVersion s with
    | none => rfl
    | some v => exact absurd (parseVersion_some_shape hp) hshape

/-- Witness for C7 at a concrete version with and without suffixes. -/
theorem parseVersion_spec_witness :
    parseVersion (String.mk ("1".data ++ '.' :: ("2".data ++ '.' :: "3".data))) =
        some ⟨digitsToNat "1".data, digitsToNat "2".data, digitsToNat "3".data⟩ ∧
    parseVersion (String.mk ("1".data ++ '.' :: ("2".data ++ '.' :: ("3".data ++ '-' :: "beta+7".data)))) =
        some ⟨digitsToNat "1".data, digitsToNat "2".data, digitsToNat "3".data⟩ :=
  ⟨(parseVersion_spec.1 "1".data "2".data "3".data (by decide) (by decide) (by decide)
      (by decide) (by decide) (by decide)).1,
    ((parseVersion_spec.1 "1".data "2".data "3".data (by decide) (by decide) (by decide)
      (by decide) (by decide) (by decide)).2 "beta+7".data (by decide)).1⟩

/-! Lemmas for the install-path name derivation. -/

theorem stripLeadNM_append (r : List Char) :
    stripLeadNM ("node_modules/".data ++ r) = r := by
  unfold stripLeadNM
  rw [if_pos (List.isPrefixOf_iff_prefix.mpr (List.prefix_append ..))]
  exact List.drop_left ..

theorem truncAtNM_no_slash {l : List Char}
    (h : l.all (fun c => !(c == '/')) = true) : truncAtNM l = l := by
  induction l with
  | nil => rfl
  | cons c cs ih =>
    simp only [List.all_cons, Bool.and_eq_true] at h
    unfold truncAtNM
    rw [if_neg]
    · rw [ih h.2]
    · intro hcon
      have hpre := ((Bool.and_eq_true ..).mp hcon).1
      obtain ⟨t, ht⟩ := List.isPrefixOf_iff_prefix.mp hpre
      have hnm : "/node_modules/".data = '/' :: "node_modules/".data := by decide
      rw [hnm, List.cons_append] at ht
      injection ht with hhead _
      rw [← hhead] at h
      simp at h

theorem truncAtNM_hit {l : List Char}
    (h1 : "/node_modules/".data.isPrefixOf l = true)
    (h2 : (l.drop ("/node_modules/".data.length)).all jsDotChar = true) :
    truncAtNM l = [] := by
  cases l with
  | nil =>
    rw [show ("/node_modules/".data.isPrefixOf ([] : List Char)) = false from by decide] at h1
    exact Bool.noConfusion h1
  | cons c cs =>
    unfold truncAtNM
    rw [if_pos ((Bool.and_eq_true ..).mpr ⟨h1, h2⟩)]

theorem truncAtNM_finds {a t : List Char}
    (ha : a.all (fun c => !(c == '/')) = true) (ht : t.all jsDotChar = true) :
    truncAtNM (a ++ ("/node_modules/".data ++ t)) = a := by
  induction a with
  | nil =>
    simp only [List.nil_append]
    apply truncAtNM_hit (List.isPrefixOf_iff_prefix.mpr (List.prefix_append ..))
    rw [List.drop_left]
    exact ht
  | cons c cs ih =>
    simp only [List.all_cons, Bool.and_eq_true] at ha
    rw [List.cons_append]
    unfold truncAtNM
    rw [if_neg]
    · rw [ih ha.2]
    · intro hcon
      have hpre := ((Bool.and_eq_true ..).mp hcon).1
      obtain ⟨u, hu⟩ := List.isPrefixOf_iff_prefix.mp hpre
      have hnm : "/node_modules/".data = '/' :: "node_modules/".data := by decide
      rw [hnm, List.cons_append] at hu
      injection hu with hhead _
      rw [← hhead] at ha
      simp at ha

/-- C2 counterexample: on the nested install path
node_modules/foo/node_modules/bar the source derives the name foo (truncating
at the first subsequent /node_modules/), while the claim's reading (the
segment immediately following the last node_modules/) denotes bar. -/
theorem derive_name_last_reading_cex :
    deriveName "node_modules/foo/node_modules/bar" = "foo" ∧
    nameAfterLastNodeModules "node_modules/foo/node_modules/bar" = "bar" ∧
    deriveName "node_modules/foo/node_modules/bar" ≠
      nameAfterLastNodeModules "node_modules/foo/node_modules/bar" := by
  decide

/-- C2 amended: the name is derived by stripping one leading node_modules/
and truncating at the first subsequent /node_modules/ (not the last): a
slash-free package name is recovered exactly, both alone and with a nested
node_modules tail, a scoped path node_modules/@scope/pkg yields @scope/pkg,
and the nested path node_modules/foo/node_modules/bar yields foo. -/
theorem derive_name_first_truncation :
    (∀ (name tail : String), name.data.all (fun c => !(c == '/')) = true →
      tail.data.all jsDotChar = true →
      deriveName ("node_modules/" ++ name) = name ∧
      deriveName ("node_modules/" ++ name ++ "/node_modules/" ++ tail) = name)
    ∧ deriveName "node_modules/@scope/pkg" = "@scope/pkg"
    ∧ deriveName "node_modules/foo/node_modules/bar" = "foo" := by
  refine ⟨?_, by decide, by decide⟩
  intro name tail hname htail
  constructor
  · show String.mk (truncAtNM (stripLeadNM ("node_modules/" ++ name).data)) = name
    rw [String.data_append, stripLeadNM_append, truncAtNM_no_slash hname]
  · show String.mk
      (truncAtNM (stripLeadNM ("node_modules/" ++ name ++ "/node_modules/" ++ tail).data)) = name
    rw [String.data_append, String.data_append, String.data_append]
    rw [List.append_assoc, List.append_assoc]
    rw [stripLeadNM_append]
    rw [truncAtNM_finds hname htail]

/-- Witness for the amended C2 at a slash-free package name. -/
theorem derive_name_first_truncation_witness :
    ("pkg" : String).data.all (fun c => !(c == '/')) = true ∧
    deriveName ("node_modules/" ++ "pkg") = "pkg" ∧
    deriveName ("node_modules/" ++ "pkg" ++ "/node_modules/" ++ "dep") = "pkg" :=
  ⟨by decide, (derive_name_first_truncation.1 "pkg" "dep" (by decide) (by decide)).1,
    (derive_name_first_truncation.1 "pkg" "dep" (by decide) (by decide)).2⟩

/-- C4: the v6 walk keys every produced entry as a synthetic path of the
shape prefix/node_modules/name (node_modules/name at the root), an entry
without a version contributes no leaf of its own while its nested
dependencies are still processed, and the spec's two-package example
produces exactly its two expected path-to-version entries in order. -/
theorem parseV6Dependencies_spec :
    (∀ (entries : List (String × V6Tree)) (pre : String) (pr : String × LockEntry),
      pr ∈ parseV6Dependencies entries pre → ∃ q n, pr.1 = mkPath q n)
    ∧ (∀ (pre name : String) (ds rest : List (String × V6Tree)),
      parseV6Dependencies ((name, V6Tree.mk none ds) :: rest) pre =
        parseV6Dependencies ds (mkPath pre name) ++ parseV6Dependencies rest pre)
    ∧ parseV6Dependencies
        [("foo", V6Tree.mk (some "1.0.0") [("bar", V6Tree.mk (some "2.0.0") [])])] "" =
      [("node_modules/foo", LockEntry.mk (some "1.0.0")),
       ("node_modules/foo/node_modules/bar", LockEntry.mk (some "2.0.0"))] := by
  refine ⟨?_, ?_, ?_⟩
  · intro entries pre
    induction entries, pre using parseV6Dependencies.induct with
    | case1 pre =>
      intro pr hpr
      simp [parseV6Dependencies] at hpr
    | case2 packageName v ds rest pre ih1 ih2 =>
      intro pr hpr
      rw [parseV6Dependencies.eq_def] at hpr
      rcases List.mem_append.mp hpr with hAB | hC
      · rcases List.mem_append.mp hAB with hA | hB
        · cases v with
          | none => simp at hA
          | some ver =>
            by_cases hv : (ver == "") = true
            · simp [hv] at hA
            · rw [Bool.not_eq_true] at hv
              simp [hv] at hA
              exact ⟨pre, packageName, by rw [hA]⟩
        · exact ih1 pr hB
      · exact ih2 pr hC
  · intro pre name ds rest
    rw [parseV6Dependencies]
    simp
  · rw [parseV6Dependencies]
    simp only [parseV6Dependencies, mkPath]
    decide

/-- Witness for C4: the root entry of the concrete example is produced by
the walk and its key has the synthetic path shape. -/
theorem parseV6Dependencies_spec_witness :
    ("node_modules/foo", LockEntry.mk (some "1.0.0")) ∈
      parseV6Dependencies
        [("foo", V6Tree.mk (some "1.0.0") [("bar", V6Tree.mk (some "2.0.0") [])])] "" ∧
    ∃ q n, ("node_modules/foo" : String) = mkPath q n := by
  have hmem : ("node_modules/foo", LockEntry.mk (some "1.0.0")) ∈
      parseV6Dependencies
        [("foo", V6Tree.mk (some "1.0.0") [("bar", V6Tree.mk (some "2.0.0") [])])] "" := by
    rw [parseV6Dependencies_spec.2.2]
    decide
  exact ⟨hmem,
    parseV6Dependencies_spec.1
      [("foo", V6Tree.mk (some "1.0.0") [("bar", V6Tree.mk (some "2.0.0") [])])] ""
      ("node_modules/foo", LockEntry.mk (some "1.0.0")) hmem⟩

/-- C9: every successful scan report satisfies that the total equals the
length of the match list and the safe flag holds exactly when the match
list is empty; a failed read or decode yields an error report carrying the
failure description, marked unsafe, with no match data. -/
theorem scan_report_invariants :
    (∀ (fp : String) (res : Except String PackageData) (db : List (String × List String)),
      match checkForCompromisedPackages fp res db with
      | ScanReport.ok _ found total safe => total = found.length ∧ (safe = true ↔ found = [])
      | ScanReport.fail _ _ safe => safe = false)
    ∧ (∀ (fp e : String) (db : List (String × List String)),
      checkForCompromisedPackages fp (Except.error e) db = ScanReport.fail fp e false) := by
  constructor
  · intro fp res db
    cases res with
    | error e => exact rfl
    | ok pd => exact ⟨rfl, by simp [List.length_eq_zero]⟩
  · intro fp e db
    rfl

/-! Lemmas for permutation invariance of the matcher. -/

theorem perm_contains_eq {l l' : List String} (h : l.Perm l') (x : String) :
    l.contains x = l'.contains x := by
  have hiff : (l.contains x = true) ↔ (l'.contains x = true) := by
    rw [List.elem_iff, List.elem_iff]
    exact h.mem_iff
  cases hb : l'.contains x
  · cases hb2 : l.contains x
    · rfl
    · exact absurd (hiff.mp hb2) (by rw [hb]; simp)
  · exact hiff.mpr hb

theorem perm_any_eq {l l' : List String} (h : l.Perm l') (p : String → Bool) :
    l.any p = l'.any p := by
  have hiff : (l.any p = true) ↔ (l'.any p = true) := by
    rw [List.any_eq_true, List.any_eq_true]
    constructor
    · rintro ⟨x, hx, hp⟩
      exact ⟨x, h.mem_iff.mp hx, hp⟩
    · rintro ⟨x, hx, hp⟩
      exact ⟨x, h.mem_iff.mpr hx, hp⟩
  cases hb : l'.any p
  · cases hb2 : l.any p
    · rfl
    · exact absurd (hiff.mp hb2) (by rw [hb]; simp)
  · exact hiff.mpr hb

theorem caretCheck_perm {cvs cvs' : List String} (h : cvs.Perm cvs') (r : List Char) :
    caretCheck r cvs = caretCheck r cvs' := by
  cases hbs : matchTripleAt r with
  | none => simp [caretCheck, hbs]
  | some bs =>
    cases hpv : parseVersion (String.mk bs) with
    | none => simp [caretCheck, hbs, hpv]
    | some base =>
      simp only [caretCheck, hbs, hpv]
      exact perm_any_eq h _

theorem tildeCheck_perm {cvs cvs' : List String} (h : cvs.Perm cvs') (r : List Char) :
    tildeCheck r cvs = tildeCheck r cvs' := by
  cases hbs : matchTripleAt r with
  | none => simp [tildeCheck, hbs]
  | some bs =>
    cases hpv : parseVersion (String.mk bs) with
    | none => simp [tildeCheck, hbs, hpv]
    | some base =>
      simp only [tildeCheck, hbs, hpv]
      exact perm_any_eq h _

theorem otherCheck_perm {cvs cvs' : List String} (h : cvs.Perm cvs') (range : List Char) :
    otherCheck range cvs = otherCheck range cvs' := by
  cases hft : findTriple range with
  | none => simp [otherCheck, hft]
  | some m =>
    simp only [otherCheck, hft]
    exact perm_contains_eq h _

/-- C10: the matcher's verdict is invariant under permutation of the
compromised-version list; only membership matters, not order. -/
theorem matcher_permutation_invariant (s : String) (cvs cvs' : List String)
    (h : cvs.Perm cvs') :
    isVersionCompromised s cvs = isVersionCompromised s cvs' := by
  by_cases hs : s = ""
  · subst hs
    simp [isVersionCompromised]
  · by_cases hc : cvs = []
    · subst hc
      have hc' : cvs' = [] := List.Perm.eq_nil h.symm
      rw [hc']
    · have hc' : cvs' ≠ [] := fun he => hc (List.Perm.eq_nil (he ▸ h))
      cases hm : matchTripleAt (jsTrim s).data with
      | some ex =>
        rw [ivc_exact s cvs ex hm hc, ivc_exact s cvs' ex hm hc']
        exact perm_contains_eq h _
      | none =>
        cases hd : (jsTrim s).data with
        | nil =>
          rw [ivc_other s cvs hm (by intro c r hcon; rw [hd] at hcon; cases hcon) hc hs,
            ivc_other s cvs' hm (by intro c r hcon; rw [hd] at hcon; cases hcon) hc' hs]
          exact otherCheck_perm h _
        | cons c r =>
          by_cases h1 : c = '^'
          · subst h1
            rw [ivc_caret s cvs r hd hc, ivc_caret s cvs' r hd hc']
            exact caretCheck_perm h r
          · by_cases h2 : c = '~'
            · subst h2
              rw [ivc_tilde s cvs r hd hc, ivc_tilde s cvs' r hd hc']
              exact tildeCheck_perm h r
            · have hhead : ∀ c' r', (jsTrim s).data = c' :: r' → c' ≠ '^' ∧ c' ≠ '~' := by
                intro c' r' hcon
                rw [hd] at hcon
                injection hcon with e1 e2
                subst e1
                exact ⟨h1, h2⟩
              rw [ivc_other s cvs hm hhead hc hs, ivc_other s cvs' hm hhead hc' hs]
              exact otherCheck_perm h _

/-- Witness for C10 at a concrete two-element permutation. -/
theorem matcher_permutation_invariant_witness :
    (["1.2.3", "9.9.9"] : List String).Perm ["9.9.9", "1.2.3"] ∧
    isVersionCompromised "1.2.3" ["1.2.3", "9.9.9"] =
      isVersionCompromised "1.2.3" ["9.9.9", "1.2.3"] :=
  ⟨List.Perm.swap "9.9.9" "1.2.3" [],
    matcher_permutation_invariant "1.2.3" ["1.2.3", "9.9.9"] ["9.9.9", "1.2.3"]
      (List.Perm.swap "9.9.9" "1.2.3" [])⟩
